import Mathlib

set_option maxRecDepth 8000

/-!
Verification of the safe arithmetic-expression evaluator in
`flask_calculator_app.py` (the `safe_eval` / `_eval` functions, their
operator allow-list `ALLOWED_OPERATORS`, and the `/eval` route `evaluate`
with its percent-suffix preprocessing and error recovery).

Modelling conventions:
* Python `int` is modelled by `ℤ` (arbitrary precision, exact).
* Python `float` is idealised as an exact rational `ℚ` (the spec only asks
  for agreement within float tolerance; floating rounding, overflow,
  infinities and NaN are outside the model).  Powers with a non-integral
  exponent, whose exact value is irrational in general, are mapped to the
  dedicated model-boundary error `Err.nonIntegerPower`; no claim depends on
  such inputs.
* Python `complex` literals (`2j`) are modelled by pairs of rationals.
* The trusted external parser `ast.parse(expr, mode="eval")` is modelled by
  a tokenizer and recursive-descent parser implementing the Python
  expression grammar restricted to the constructs relevant here: numeric
  literals, the binary operators `+ - * / % ** //`, unary `+ - ~`,
  parentheses, and — mapped to the catch-all `Expr.other` node exactly as
  Python maps them to non-arithmetic AST nodes — names, calls, string
  literals and tuples.  Inputs outside this fragment are parse errors both
  in Python and in the model.
* Error message strings follow the shape of the CPython messages but do not
  reproduce class reprs character by character (e.g. quotes are omitted).

The arithmetic helpers (`qadd`, `qmul`, ...) compute the standard `ℚ`
operations of Mathlib through `mkRat`, so concrete runs reduce in the
kernel; the bridge theorems (`qadd_eq`, ...) prove they agree with the
mathematical operations.
-/

namespace PyCalc

/-! ### Kernel-reducible rational arithmetic -/

/-- The rational zero, in kernel-reducible form. -/
def qzero : ℚ := mkRat 0 1

/-- Embed an integer into `ℚ`. -/
def qofInt (i : ℤ) : ℚ := mkRat i 1

/-- Addition on `ℚ` via `mkRat` (agrees with `+`, see `qadd_eq`). -/
def qadd (a b : ℚ) : ℚ := mkRat (a.num * b.den + b.num * a.den) (a.den * b.den)

/-- Negation on `ℚ` via `mkRat`. -/
def qneg (a : ℚ) : ℚ := mkRat (-a.num) a.den

/-- Subtraction on `ℚ` via `mkRat`. -/
def qsub (a b : ℚ) : ℚ := qadd a (qneg b)

/-- Multiplication on `ℚ` via `mkRat`. -/
def qmul (a b : ℚ) : ℚ := mkRat (a.num * b.num) (a.den * b.den)

/-- Inverse on `ℚ` via `mkRat` (sends `0` to `0`, as Mathlib does). -/
def qinv (a : ℚ) : ℚ :=
if a.num < 0 then mkRat (-(a.den : ℤ)) a.num.natAbs else mkRat a.den a.num.toNat

/-- Division on `ℚ` via `mkRat`. -/
def qdiv (a b : ℚ) : ℚ := qmul a (qinv b)

/-- Floor division of integers (Python `//` semantics, rounding towards
`-∞`), written with euclidean division so that it reduces in the kernel. -/
def pyfdiv (a b : ℤ) : ℤ := if 0 ≤ b then a / b else (-a) / (-b)

/-- Python integer `%`: `a - b * ⌊a / b⌋` (sign of the divisor). -/
def pymod (a b : ℤ) : ℤ := a - b * pyfdiv a b

/-- Floor of a rational, in kernel-reducible form. -/
def qfloor (a : ℚ) : ℤ := pyfdiv a.num a.den

/-- `q ^ n` for natural `n`, via `qmul`. -/
def qnpow (q : ℚ) : Nat → ℚ
| 0 => mkRat 1 1
| n + 1 => qmul q (qnpow q n)

/-- `q ^ n` for integer `n`, via `qnpow` and `qinv`. -/
def qzpow (q : ℚ) (n : ℤ) : ℚ :=
if 0 ≤ n then qnpow q n.toNat else qinv (qnpow q (-n).toNat)

/-! ### Values: Python numbers -/

/-- A Python numeric value as produced and consumed by `_eval`: an `int`, a
`float` (idealised as an exact rational) or a `complex` (pair of float
components). -/
inductive Value where
| intV (i : ℤ)
| floatV (q : ℚ)
| complexV (re im : ℚ)
deriving DecidableEq

/-- The rational content of a real (non-complex) value. -/
def Value.toR : Value → ℚ
| .intV i => qofInt i
| .floatV q => q
| .complexV re _ => re

/-- Real component, viewing any value as a complex number. -/
def Value.reC : Value → ℚ
| .intV i => qofInt i
| .floatV q => q
| .complexV re _ => re

/-- Imaginary component, viewing any value as a complex number. -/
def Value.imC : Value → ℚ
| .intV _ => qzero
| .floatV _ => qzero
| .complexV _ im => im

/-- Is this value a Python `complex`? -/
def Value.isComplexB : Value → Bool
| .complexV _ _ => true
| _ => false

/-- Is this value a Python `int`? -/
def Value.isIntB : Value → Bool
| .intV _ => true
| _ => false

/-- Numeric zero test (Python `== 0`), used by the division-by-zero
checks. -/
def Value.isZeroB : Value → Bool
| .intV i => i == 0
| .floatV q => q.num == 0
| .complexV re im => re.num == 0 && im.num == 0

/-- Complex multiplication on component pairs. -/
def cmul (a b : ℚ × ℚ) : ℚ × ℚ :=
(qsub (qmul a.1 b.1) (qmul a.2 b.2), qadd (qmul a.1 b.2) (qmul a.2 b.1))

/-- Complex inverse on component pairs. -/
def cinv (a : ℚ × ℚ) : ℚ × ℚ :=
(qdiv a.1 (qadd (qmul a.1 a.1) (qmul a.2 a.2)),
 qdiv (qneg a.2) (qadd (qmul a.1 a.1) (qmul a.2 a.2)))

/-- Complex division on component pairs. -/
def cdiv (a b : ℚ × ℚ) : ℚ × ℚ := cmul a (cinv b)

/-- Complex natural power. -/
def cnpow (a : ℚ × ℚ) : Nat → ℚ × ℚ
| 0 => (mkRat 1 1, qzero)
| n + 1 => cmul a (cnpow a n)

/-- Complex integer power. -/
def czpow (a : ℚ × ℚ) (n : ℤ) : ℚ × ℚ :=
if 0 ≤ n then cnpow a n.toNat else cinv (cnpow a (-n).toNat)

/-! ### Errors -/

/-- The failures the evaluator can produce.  `parseError` models a Python
`SyntaxError` from `ast.parse`; `divisionByZero` a `ZeroDivisionError`;
`typeMismatch` a `TypeError` (modulo with complex operands);
`operatorNotAllowed`, `unaryNotAllowed` and `unsupportedExpression` the
`ValueError`s raised explicitly by `_eval`; `nonIntegerPower` is the model
boundary for powers with non-integral exponent (see the header). -/
inductive Err where
| parseError (msg : String)
| divisionByZero (msg : String)
| typeMismatch (msg : String)
| operatorNotAllowed (tag : String)
| unaryNotAllowed (tag : String)
| unsupportedExpression (kind : String)
| nonIntegerPower
deriving DecidableEq

instance {ε α : Type} [DecidableEq ε] [DecidableEq α] : DecidableEq (Except ε α) := fun x y =>
match x, y with
| .ok a, .ok b =>
  if h : a = b then .isTrue (by rw [h]) else .isFalse (by intro hh; cases hh; exact h rfl)
| .error a, .error b =>
  if h : a = b then .isTrue (by rw [h]) else .isFalse (by intro hh; cases hh; exact h rfl)
| .ok _, .error _ => .isFalse (by intro hh; cases hh)
| .error _, .ok _ => .isFalse (by intro hh; cases hh)

/-! ### The numeric operations of the `operator` module -/

/-- Python `+` (`op.add`): ints stay ints, floats promote, complex
dominates. -/
def addV (v w : Value) : Value :=
if v.isComplexB || w.isComplexB then
  .complexV (qadd v.reC w.reC) (qadd v.imC w.imC)
else
  match v, w with
  | .intV a, .intV b => .intV (a + b)
  | _, _ => .floatV (qadd v.toR w.toR)

/-- Python `-` (`op.sub`). -/
def subV (v w : Value) : Value :=
if v.isComplexB || w.isComplexB then
  .complexV (qsub v.reC w.reC) (qsub v.imC w.imC)
else
  match v, w with
  | .intV a, .intV b => .intV (a - b)
  | _, _ => .floatV (qsub v.toR w.toR)

/-- Python `*` (`op.mul`). -/
def mulV (v w : Value) : Value :=
if v.isComplexB || w.isComplexB then
  .complexV (cmul (v.reC, v.imC) (w.reC, w.imC)).1 (cmul (v.reC, v.imC) (w.reC, w.imC)).2
else
  match v, w with
  | .intV a, .intV b => .intV (a * b)
  | _, _ => .floatV (qmul v.toR w.toR)

/-- The `ZeroDivisionError` message for true division, by operand type. -/
def divMsg (v w : Value) : String :=
if v.isComplexB || w.isComplexB then "complex division by zero"
else if v.isIntB && w.isIntB then "division by zero"
else "float division by zero"

/-- Python `/` (`op.truediv`): always a float (or complex); raises
`ZeroDivisionError` on a zero divisor whatever the operand types. -/
def truedivV (v w : Value) : Except Err Value :=
if w.isZeroB then .error (.divisionByZero (divMsg v w))
else if v.isComplexB || w.isComplexB then
  .ok (.complexV (cdiv (v.reC, v.imC) (w.reC, w.imC)).1 (cdiv (v.reC, v.imC) (w.reC, w.imC)).2)
else .ok (.floatV (qdiv v.toR w.toR))

/-- Python `%` (`op.mod`): `TypeError` on complex operands, otherwise
`ZeroDivisionError` on a zero divisor, otherwise the floor-signed
remainder. -/
def modV (v w : Value) : Except Err Value :=
if v.isComplexB || w.isComplexB then
  .error (.typeMismatch "unsupported operand types for mod with complex")
else if w.isZeroB then
  .error (.divisionByZero (if v.isIntB && w.isIntB then "integer modulo by zero" else "float modulo"))
else
  match v, w with
  | .intV a, .intV b => .ok (.intV (pymod a b))
  | _, _ => .ok (.floatV (qsub v.toR (qmul w.toR (qofInt (qfloor (qdiv v.toR w.toR))))))

/-- The exponent of a Python `**`, when it is integral (this is the region
where the exact value stays rational; see the header). -/
def Value.intExp : Value → Option ℤ
| .intV i => some i
| .floatV q => if q.den == 1 then some q.num else none
| .complexV re im => if im.num == 0 && re.den == 1 then some re.num else none

/-- Python `**` (`op.pow`) on the integral-exponent region: `int ** int`
is exact (a float for a negative exponent), a float base gives a float,
complex operands give a complex; `0 ** n` for negative `n` raises
`ZeroDivisionError`. -/
def powV (v w : Value) : Except Err Value :=
match w.intExp with
| none => .error .nonIntegerPower
| some n =>
  if v.isZeroB && n < 0 then
    .error (.divisionByZero "zero cannot be raised to a negative power")
  else if v.isComplexB || w.isComplexB then
    .ok (.complexV (czpow (v.reC, v.imC) n).1 (czpow (v.reC, v.imC) n).2)
  else
    match v, w with
    | .intV a, .intV _ =>
      if 0 ≤ n then .ok (.intV (a ^ n.toNat)) else .ok (.floatV (qzpow (qofInt a) n))
    | _, _ => .ok (.floatV (qzpow v.toR n))

/-- Python unary `-` (`op.neg`). -/
def negV : Value → Value
| .intV i => .intV (-i)
| .floatV q => .floatV (qneg q)
| .complexV re im => .complexV (qneg re) (qneg im)

/-! ### Syntax trees and the evaluator -/

/-- Binary-operator tags of `ast.BinOp` nodes reachable through the
supported token set.  `floorDiv` (`//`) is parsed by Python but absent
from the allow-list. -/
inductive BOp where
| add | sub | mult | div | pow | mod | floorDiv
deriving DecidableEq

/-- The `ast` class name of a binary operator tag. -/
def BOp.tag : BOp → String
| .add => "Add"
| .sub => "Sub"
| .mult => "Mult"
| .div => "Div"
| .pow => "Pow"
| .mod => "Mod"
| .floorDiv => "FloorDiv"

/-- Unary-operator tags of `ast.UnaryOp` nodes.  `invert` (`~`) is parsed
by Python but absent from the allow-list. -/
inductive UOp where
| usub | uadd | invert
deriving DecidableEq

/-- The `ast` class name of a unary operator tag. -/
def UOp.tag : UOp → String
| .usub => "USub"
| .uadd => "UAdd"
| .invert => "Invert"

/-- The binary half of the `ALLOWED_OPERATORS` dict (lines 9-18 of the
source): `ast.Add ↦ op.add`, `ast.Sub ↦ op.sub`, `ast.Mult ↦ op.mul`,
`ast.Div ↦ op.truediv`, `ast.Pow ↦ op.pow`, `ast.Mod ↦ op.mod`; any other
binary tag is absent.  (Lean's typing splits the one Python dict into a
binary and a unary table; the key sets are disjoint in the source.) -/
def ALLOWED_OPERATORS : BOp → Option (Value → Value → Except Err Value)
| .add => some (fun a b => .ok (addV a b))
| .sub => some (fun a b => .ok (subV a b))
| .mult => some (fun a b => .ok (mulV a b))
| .div => some truedivV
| .pow => some powV
| .mod => some modV
| .floorDiv => none

/-- The unary half of the `ALLOWED_OPERATORS` dict: `ast.USub ↦ op.neg`,
`ast.UAdd ↦ op.pos` (the identity on numbers); any other unary tag is
absent. -/
def ALLOWED_UNARY : UOp → Option (Value → Except Err Value)
| .usub => some (fun a => .ok (negV a))
| .uadd => some (fun a => .ok a)
| .invert => none

/-- The syntax trees `_eval` walks: `ast.Num` (numeric constants),
`ast.Expression` (the `mode="eval"` wrapper), `ast.BinOp`, `ast.UnaryOp`,
and — collapsed into `other`, which records only the node kind — every
non-arithmetic node (`Name`, `Call`, `Constant` strings, `Tuple`, ...).
`_eval` rejects an `other` node before ever looking inside it, so its
children need not be recorded. -/
inductive Expr where
| num (v : Value)
| expression (body : Expr)
| binop (left : Expr) (o : BOp) (right : Expr)
| unaryop (o : UOp) (operand : Expr)
| other (kind : String)
deriving DecidableEq

/-- The recursive interpreter `_eval` (lines 25-43 of the source):
numbers evaluate to themselves, `Expression` unwraps, `BinOp` evaluates
left then right then consults the allow-list, `UnaryOp` evaluates the
operand then consults the allow-list, and any other node kind fails with
`Unsupported expression`. -/
def evalE : Expr → Except Err Value
| .num v => .ok v
| .expression b => evalE b
| .binop l o r =>
  match evalE l with
  | .error e => .error e
  | .ok a =>
    match evalE r with
    | .error e => .error e
    | .ok b =>
      match ALLOWED_OPERATORS o with
      | some f => f a b
      | none => .error (.operatorNotAllowed o.tag)
| .unaryop o e =>
  match evalE e with
  | .error er => .error er
  | .ok a =>
    match ALLOWED_UNARY o with
    | some f => f a
    | none => .error (.unaryNotAllowed o.tag)
| .other kind => .error (.unsupportedExpression kind)

/-! ### The external parser: tokenizer -/

/-- The tokens of the supported fragment of the Python expression
grammar. -/
inductive Token where
| num (v : Value)
| ident (s : List Char)
| strT (s : List Char)
| plus | minus | star | dstar | slash | dslash | percent | tilde
| lparen | rparen | comma
deriving DecidableEq

/-- Whitespace skipped by the tokenizer (the characters Python's lexer and
`str.strip` treat as whitespace in the ASCII range). -/
def isSpaceC (c : Char) : Bool :=
c == ' ' || c == '\t' || c == '\n' || c == '\r' || c.toNat == 11 || c.toNat == 12

/-- Is this character a quote (`'` or `"`)? -/
def isQuoteC (c : Char) : Bool := c.toNat == 39 || c.toNat == 34

/-- First character of a Python identifier (ASCII fragment). -/
def isIdentStartC (c : Char) : Bool := c.isAlpha || c == '_'

/-- Later character of a Python identifier (ASCII fragment). -/
def isIdentC (c : Char) : Bool := c.isAlpha || c.isDigit || c == '_'

/-- Decimal digits to a natural number. -/
def digitsToNat (l : List Char) : Nat :=
l.foldl (fun a c => a * 10 + (c.toNat - 48)) 0

/-- Lex a numeric literal starting at the head of `cs` (which begins with a
digit, or with `.` followed by a digit): integer part, optional fraction,
optional exponent, optional imaginary suffix `j`/`J`, as in Python's
lexer (decimal literals only; prefixed forms like hex are outside the
fragment and lex as errors downstream). -/
def lexNum (cs : List Char) : Except Err (Token × List Char) :=
let ip := cs.takeWhile Char.isDigit
let r1 := cs.dropWhile Char.isDigit
let hasDot := r1.head? == some '.'
let fr := if hasDot then r1.tail.takeWhile Char.isDigit else []
let r2 := if hasDot then r1.tail.dropWhile Char.isDigit else r1
let mant : ℚ := qadd (qofInt (digitsToNat ip)) (mkRat (digitsToNat fr) (10 ^ fr.length))
match r2 with
| c :: r3 =>
  if c == 'e' || c == 'E' then
    let sgnNeg := r3.head? == some '-'
    let r4 := if r3.head? == some '-' || r3.head? == some '+' then r3.tail else r3
    let ed := r4.takeWhile Char.isDigit
    let r5 := r4.dropWhile Char.isDigit
    if ed.isEmpty then .error (.parseError "invalid decimal literal")
    else
      let ex : ℤ := if sgnNeg then -(digitsToNat ed : ℤ) else (digitsToNat ed : ℤ)
      let v : ℚ := qmul mant (qzpow (qofInt 10) ex)
      match r5 with
      | c2 :: r6 =>
        if c2 == 'j' || c2 == 'J' then .ok (.num (.complexV qzero v), r6)
        else .ok (.num (.floatV v), r5)
      | [] => .ok (.num (.floatV v), [])
  else if c == 'j' || c == 'J' then
    .ok (.num (.complexV qzero mant), r3)
  else if hasDot then .ok (.num (.floatV mant), r2)
  else .ok (.num (.intV (digitsToNat ip)), r2)
| [] =>
  if hasDot then .ok (.num (.floatV mant), [])
  else .ok (.num (.intV (digitsToNat ip)), [])

/-- The tokenizer.  `fuel` only bounds the recursion (every step consumes
at least one character, so `cs.length + 1` suffices); running out of fuel
is reported as a parse error but is unreachable from `tokenize`'s
callers. -/
def tokenizeGo : Nat → List Char → Except Err (List Token)
| 0, _ => .error (.parseError "tokenizer fuel exhausted")
| Nat.succ _, [] => .ok []
| Nat.succ f, c :: cs =>
  if isSpaceC c then tokenizeGo f cs
  else if c.isDigit then
    match lexNum (c :: cs) with
    | .error e => .error e
    | .ok (t, rest) =>
      match tokenizeGo f rest with
      | .error e => .error e
      | .ok ts => .ok (t :: ts)
  else if c == '.' then
    match cs with
    | d :: _ =>
      if d.isDigit then
        match lexNum (c :: cs) with
        | .error e => .error e
        | .ok (t, rest) =>
          match tokenizeGo f rest with
          | .error e => .error e
          | .ok ts => .ok (t :: ts)
      else .error (.parseError "invalid syntax")
    | [] => .error (.parseError "invalid syntax")
  else if isIdentStartC c then
    match tokenizeGo f (cs.dropWhile isIdentC) with
    | .error e => .error e
    | .ok ts => .ok (.ident (c :: cs.takeWhile isIdentC) :: ts)
  else if isQuoteC c then
    let body := cs.takeWhile (fun d => !(d == c))
    match cs.dropWhile (fun d => !(d == c)) with
    | _ :: rest =>
      match tokenizeGo f rest with
      | .error e => .error e
      | .ok ts => .ok (.strT body :: ts)
    | [] => .error (.parseError "unterminated string literal")
  else if c == '*' then
    match cs with
    | d :: rest =>
      if d == '*' then
        match tokenizeGo f rest with
        | .error e => .error e
        | .ok ts => .ok (.dstar :: ts)
      else
        match tokenizeGo f cs with
        | .error e => .error e
        | .ok ts => .ok (.star :: ts)
    | [] => .ok [.star]
  else if c == '/' then
    match cs with
    | d :: rest =>
      if d == '/' then
        match tokenizeGo f rest with
        | .error e => .error e
        | .ok ts => .ok (.dslash :: ts)
      else
        match tokenizeGo f cs with
        | .error e => .error e
        | .ok ts => .ok (.slash :: ts)
    | [] => .ok [.slash]
  else
    let simple : Option Token :=
      if c == '+' then some .plus
      else if c == '-' then some .minus
      else if c == '%' then some .percent
      else if c == '~' then some .tilde
      else if c == '(' then some .lparen
      else if c == ')' then some .rparen
      else if c == ',' then some .comma
      else none
    match simple with
    | some t =>
      match tokenizeGo f cs with
      | .error e => .error e
      | .ok ts => .ok (t :: ts)
    | none => .error (.parseError "invalid character")

/-- Tokenize a character list. -/
def tokenize (cs : List Char) : Except Err (List Token) :=
tokenizeGo (cs.length + 1) cs

/-! ### The external parser: grammar -/

/-- Parser states: one for each precedence level of the Python expression
grammar restricted to the supported fragment (`addsub` < `muldiv` <
`unary` < `power` < `atom`), plus the accumulator states for left-
associative operator chains, call/parenthesis trailers, and argument
lists. -/
inductive PMode where
| addsub | muldiv | unary | power | atom
| loopAdd (acc : Expr)
| loopMul (acc : Expr)
| loopTrail (acc : Expr)
| loopArgs (acc : Expr)
deriving DecidableEq

/-- Recursive-descent parser for the supported fragment of the Python
expression grammar.  Precedence and associativity follow Python: `+ -`
then `* / % //` associate to the left, unary `+ - ~` bind tighter than
both, and `**` binds tighter still, associates to the right, and takes a
unary expression on its right (so `-2**2` is `-(2**2)` and `2**-3` is
legal).  Names, string literals, tuples and call trailers parse to the
corresponding non-arithmetic `Expr.other` node, as `ast.parse` produces
`Name`, `Constant`, `Tuple` and `Call` nodes for them.  `fuel` only
bounds the recursion; `parseToks` supplies enough for any input. -/
def parseGo : Nat → PMode → List Token → Except Err (Expr × List Token)
| 0, _, _ => .error (.parseError "expression too deep")
| Nat.succ f, m, ts =>
  match m, ts with
  | .addsub, ts =>
    match parseGo f .muldiv ts with
    | .error e => .error e
    | .ok (e, r) => parseGo f (.loopAdd e) r
  | .loopAdd acc, .plus :: r =>
    match parseGo f .muldiv r with
    | .error e => .error e
    | .ok (e, r2) => parseGo f (.loopAdd (.binop acc .add e)) r2
  | .loopAdd acc, .minus :: r =>
    match parseGo f .muldiv r with
    | .error e => .error e
    | .ok (e, r2) => parseGo f (.loopAdd (.binop acc .sub e)) r2
  | .loopAdd acc, ts => .ok (acc, ts)
  | .muldiv, ts =>
    match parseGo f .unary ts with
    | .error e => .error e
    | .ok (e, r) => parseGo f (.loopMul e) r
  | .loopMul acc, .star :: r =>
    match parseGo f .unary r with
    | .error e => .error e
    | .ok (e, r2) => parseGo f (.loopMul (.binop acc .mult e)) r2
  | .loopMul acc, .slash :: r =>
    match parseGo f .unary r with
    | .error e => .error e
    | .ok (e, r2) => parseGo f (.loopMul (.binop acc .div e)) r2
  | .loopMul acc, .percent :: r =>
    match parseGo f .unary r with
    | .error e => .error e
    | .ok (e, r2) => parseGo f (.loopMul (.binop acc .mod e)) r2
  | .loopMul acc, .dslash :: r =>
    match parseGo f .unary r with
    | .error e => .error e
    | .ok (e, r2) => parseGo f (.loopMul (.binop acc .floorDiv e)) r2
  | .loopMul acc, ts => .ok (acc, ts)
  | .unary, .plus :: r =>
    match parseGo f .unary r with
    | .error e => .error e
    | .ok (e, r2) => .ok (.unaryop .uadd e, r2)
  | .unary, .minus :: r =>
    match parseGo f .unary r with
    | .error e => .error e
    | .ok (e, r2) => .ok (.unaryop .usub e, r2)
  | .unary, .tilde :: r =>
    match parseGo f .unary r with
    | .error e => .error e
    | .ok (e, r2) => .ok (.unaryop .invert e, r2)
  | .unary, ts => parseGo f .power ts
  | .power, ts =>
    match parseGo f .atom ts with
    | .error e => .error e
    | .ok (e, r) =>
      match r with
      | .dstar :: r2 =>
        match parseGo f .unary r2 with
        | .error er => .error er
        | .ok (e2, r3) => .ok (.binop e .pow e2, r3)
      | _ => .ok (e, r)
  | .atom, .num v :: r => parseGo f (.loopTrail (.num v)) r
  | .atom, .ident _ :: r => parseGo f (.loopTrail (.other "Name")) r
  | .atom, .strT _ :: r => parseGo f (.loopTrail (.other "Constant")) r
  | .atom, .lparen :: .rparen :: r => parseGo f (.loopTrail (.other "Tuple")) r
  | .atom, .lparen :: r =>
    match parseGo f .addsub r with
    | .error e => .error e
    | .ok (e, r2) =>
      match r2 with
      | .rparen :: r3 => parseGo f (.loopTrail e) r3
      | .comma :: r3 =>
        match parseGo f (.loopArgs (.other "Tuple")) r3 with
        | .error er => .error er
        | .ok (t, r4) => parseGo f (.loopTrail t) r4
      | _ => .error (.parseError "invalid syntax")
  | .atom, _ => .error (.parseError "invalid syntax")
  | .loopTrail _, .lparen :: .rparen :: r => parseGo f (.loopTrail (.other "Call")) r
  | .loopTrail _, .lparen :: r =>
    match parseGo f .addsub r with
    | .error e => .error e
    | .ok (_, r2) =>
      match r2 with
      | .rparen :: r3 => parseGo f (.loopTrail (.other "Call")) r3
      | .comma :: r3 =>
        match parseGo f (.loopArgs (.other "Call")) r3 with
        | .error er => .error er
        | .ok (t, r4) => parseGo f (.loopTrail t) r4
      | _ => .error (.parseError "invalid syntax")
  | .loopTrail acc, ts => .ok (acc, ts)
  | .loopArgs acc, .rparen :: r => .ok (acc, r)
  | .loopArgs acc, ts =>
    match parseGo f .addsub ts with
    | .error e => .error e
    | .ok (_, r2) =>
      match r2 with
      | .comma :: r3 => parseGo f (.loopArgs acc) r3
      | .rparen :: r3 => .ok (acc, r3)
      | _ => .error (.parseError "invalid syntax")

/-- Parse a token list as a complete expression. -/
def parseToks (ts : List Token) : Except Err Expr :=
match parseGo (10 * ts.length + 10) .addsub ts with
| .error e => .error e
| .ok (e, []) => .ok (.expression e)
| .ok (_, _ :: _) => .error (.parseError "invalid syntax")

/-- The model of `ast.parse(expr, mode="eval")`: tokenize, parse, and wrap
the body in the `ast.Expression` node that `mode="eval"` produces. -/
def parseE (cs : List Char) : Except Err Expr :=
match tokenize cs with
| .error e => .error e
| .ok ts => parseToks ts

/-- `safe_eval` (lines 21-46 of the source): parse in evaluation mode,
then interpret with `_eval`. -/
def safe_eval (cs : List Char) : Except Err Value :=
match parseE cs with
| .error e => .error e
| .ok t => evalE t

/-! ### The `/eval` route (lines 188-202 of the source) -/

/-- `expr.replace('×', '*').replace('÷', '/')` — the route first maps the
unicode symbols the front end may send to the ASCII operators. -/
def replaceSyms (cs : List Char) : List Char :=
(cs.map fun c => if c == '×' then '*' else c).map fun c => if c == '÷' then '/' else c

/-- Python `str.strip()` (ASCII whitespace fragment). -/
def trimChars (cs : List Char) : List Char :=
((cs.dropWhile isSpaceC).reverse.dropWhile isSpaceC).reverse

/-- Python `str.replace('.', '', 1)`: remove the first dot, if any. -/
def removeFirstDot : List Char → List Char
| [] => []
| c :: rest => if c == '.' then rest else c :: removeFirstDot rest

/-- The route's guard on the percent prefix:
`cleaned[:-1].strip().replace('.', '', 1).isdigit()` (with `isdigit`
restricted to ASCII digits in the model). -/
def percentArgOK (p : List Char) : Bool :=
let s := removeFirstDot (trimChars p)
!s.isEmpty && s.all Char.isDigit

/-- Python `str.endswith('%')`: the literal last character is `%` (no
trimming happens here in the source). -/
def endsPercent (cs : List Char) : Bool :=
cs.getLast? == some '%'

/-- The percent-suffix rewrite of the route: when the cleaned input ends
with `%` and the (stripped, one dot removed) prefix is all digits, rewrite
`<N>%` to `(<N>)/100`, with the prefix `cleaned[:-1]` inserted verbatim
(unstripped). -/
def percentRewrite (cs : List Char) : List Char :=
if endsPercent cs && percentArgOK cs.dropLast then
  '(' :: (cs.dropLast ++ (")/100").data)
else cs

/-- The full string preprocessing the route applies before `safe_eval`. -/
def cleanL (cs : List Char) : List Char := percentRewrite (replaceSyms cs)

/-- The JSON value the route returns: `{ok: true, result, input}` on
success, `{ok: false, error}` on any failure. -/
inductive Response where
| okR (result : Value) (input : String)
| errR (error : String)
deriving DecidableEq

/-- `str(e)` for the exceptions the evaluator can raise (message text
follows the shape of the CPython messages; see the header). -/
def errStr : Err → String
| .parseError m => m
| .divisionByZero m => m
| .typeMismatch m => m
| .operatorNotAllowed t => "Operator ast." ++ t ++ " not allowed"
| .unaryNotAllowed t => "Unary operator ast." ++ t ++ " not allowed"
| .unsupportedExpression k => "Unsupported expression: ast." ++ k
| .nonIntegerPower => "non-integral power outside the rational model"

/-- Whether `jsonify` can serialize the result: Python's JSON encoder
accepts `int` and `float` but raises `TypeError` on `complex` (that raise
happens inside the route's `try`, so it is returned as an error). -/
def serializableB : Value → Bool
| .complexV _ _ => false
| _ => true

/-- The route's result construction: `jsonify(ok=True, result, input)`
inside the `try`, `jsonify(ok=False, error=str(e))` in the
`except Exception` handler. -/
def respond (expr : String) (r : Except Err Value) : Response :=
match r with
| .ok v =>
  if serializableB v then .okR v expr
  else .errR "Object of type complex is not JSON serializable"
| .error e => .errR (errStr e)

/-- The `/eval` route body `evaluate` (lines 188-202): preprocess the
expression string, run `safe_eval`, and return the JSON response; every
exception is caught and returned as `{ok: false, error: str(e)}`. -/
def evaluate (expr : String) : Response :=
respond expr (safe_eval (cleanL expr.data))

/-- `(request.get_json() or {}).get('expr', '')`: a missing body and a
missing `expr` field both default to the empty string. -/
def getJsonExpr : Option (Option String) → String
| none => ""
| some none => ""
| some (some s) => s

/-- The route including the body extraction. -/
def eval_route (body : Option (Option String)) : Response :=
evaluate (getJsonExpr body)

/-- A single-quote character, built by code point to keep the source free
of quote escapes. -/
def squote : String := ⟨[Char.ofNat 39]⟩

/-- The literal input string `__import__('os')` from the spec's examples. -/
def importOs : String := "__import__(" ++ squote ++ "os" ++ squote ++ ")"

/-! ### Specification-side definitions -/

/-- Does the tree contain a node outside
{NumberLiteral, BinaryOperation, UnaryOperation, Expression wrapper}? -/
def containsOther : Expr → Bool
| .num _ => false
| .expression b => containsOther b
| .binop l _ r => containsOther l || containsOther r
| .unaryop _ e => containsOther e
| .other _ => true

/-- The real arithmetic fragment: trees built from `int`/`float` literals
with allow-listed binary and unary operators only. -/
def realArith : Expr → Bool
| .num (.intV _) => true
| .num (.floatV _) => true
| .num (.complexV _ _) => false
| .expression b => realArith b
| .binop l o r => (ALLOWED_OPERATORS o).isSome && realArith l && realArith r
| .unaryop o e => (ALLOWED_UNARY o).isSome && realArith e
| .other _ => false

/-- The mathematically correct value of one binary operation over exact
rationals (`none` where no such value exists: division and modulo by
zero, `0` to a negative power, and powers with a non-integral exponent,
whose exact value is irrational in general). -/
def mathOp : BOp → ℚ → ℚ → Option ℚ
| .add, a, b => some (a + b)
| .sub, a, b => some (a - b)
| .mult, a, b => some (a * b)
| .div, a, b => if b = 0 then none else some (a / b)
| .mod, a, b => if b = 0 then none else some (a - b * ⌊a / b⌋)
| .pow, a, b =>
  if b.den = 1 then (if a = 0 ∧ b.num < 0 then none else some (a ^ b.num)) else none
| .floorDiv, _, _ => none

/-- The mathematically correct value of a tree in the real arithmetic
fragment, computed with Mathlib's exact rational arithmetic (independent
of the evaluator's int/float bookkeeping and allow-list mechanics). -/
def mathEval : Expr → Option ℚ
| .num (.intV i) => some (i : ℚ)
| .num (.floatV q) => some q
| .num (.complexV _ _) => none
| .expression b => mathEval b
| .binop l o r =>
  match mathEval l, mathEval r with
  | some a, some b => mathOp o a b
  | _, _ => none
| .unaryop .usub e => (mathEval e).map (fun a => -a)
| .unaryop .uadd e => mathEval e
| .unaryop .invert _ => none
| .other _ => none

/-- Big-step evaluation relation mirroring `_eval`, used to state that
evaluation is deterministic: a node may relate to a result only by the
rules below, which are exactly the branches of `_eval` (left operand
first, then right, then the allow-list lookup). -/
inductive EvalR : Expr → Except Err Value → Prop where
| num (v : Value) : EvalR (.num v) (.ok v)
| expr {b r} : EvalR b r → EvalR (.expression b) r
| binL {l r e} (o : BOp) : EvalR l (.error e) → EvalR (.binop l o r) (.error e)
| binR {l r a e} (o : BOp) : EvalR l (.ok a) → EvalR r (.error e) →
    EvalR (.binop l o r) (.error e)
| binOp {l r a b f} {o : BOp} : EvalR l (.ok a) → EvalR r (.ok b) →
    ALLOWED_OPERATORS o = some f → EvalR (.binop l o r) (f a b)
| binNone {l r a b} {o : BOp} : EvalR l (.ok a) → EvalR r (.ok b) →
    ALLOWED_OPERATORS o = none →
    EvalR (.binop l o r) (.error (.operatorNotAllowed o.tag))
| unE {x e} (o : UOp) : EvalR x (.error e) → EvalR (.unaryop o x) (.error e)
| unOp {x a f} {o : UOp} : EvalR x (.ok a) → ALLOWED_UNARY o = some f →
    EvalR (.unaryop o x) (f a)
| unNone {x a} {o : UOp} : EvalR x (.ok a) → ALLOWED_UNARY o = none →
    EvalR (.unaryop o x) (.error (.unaryNotAllowed o.tag))
| other (k : String) : EvalR (.other k) (.error (.unsupportedExpression k))

/-- String-level evaluation as a relation: the preprocessing and parse of
the route followed by the big-step relation, producing the route's
response. -/
def StrEval (s : String) (resp : Response) : Prop :=
(∃ t, parseE (cleanL s.data) = .ok t ∧ ∃ r, EvalR t r ∧ resp = respond s r) ∨
(∃ e, parseE (cleanL s.data) = .error e ∧ resp = respond s (.error e))

/-! ### Bridge lemmas: the kernel-reducible rational arithmetic computes
the standard operations on `ℚ` -/

theorem mkRat_eq_div' (n : ℤ) (d : ℕ) : mkRat n d = (n : ℚ) / (d : ℚ) := by
rw [Rat.mkRat_eq_divInt, Rat.divInt_eq_div]
norm_cast

theorem qofInt_eq (i : ℤ) : qofInt i = (i : ℚ) := Rat.mkRat_one i

theorem qzero_eq : qzero = 0 := by
simp [qzero]

theorem qadd_eq (a b : ℚ) : qadd a b = a + b := by
have ha : ((a.den : ℚ)) ≠ 0 := by exact_mod_cast a.den_ne_zero
have hb : ((b.den : ℚ)) ≠ 0 := by exact_mod_cast b.den_ne_zero
rw [qadd, mkRat_eq_div']
conv_rhs => rw [← Rat.num_div_den a, ← Rat.num_div_den b]
push_cast
field_simp

theorem qneg_eq (a : ℚ) : qneg a = -a := by
have ha : ((a.den : ℚ)) ≠ 0 := by exact_mod_cast a.den_ne_zero
rw [qneg, mkRat_eq_div']
conv_rhs => rw [← Rat.num_div_den a]
push_cast
field_simp

theorem qsub_eq (a b : ℚ) : qsub a b = a - b := by
rw [qsub, qadd_eq, qneg_eq, sub_eq_add_neg]

theorem qmul_eq (a b : ℚ) : qmul a b = a * b := by
have ha : ((a.den : ℚ)) ≠ 0 := by exact_mod_cast a.den_ne_zero
have hb : ((b.den : ℚ)) ≠ 0 := by exact_mod_cast b.den_ne_zero
rw [qmul, mkRat_eq_div']
conv_rhs => rw [← Rat.num_div_den a, ← Rat.num_div_den b]
push_cast
field_simp

theorem qinv_eq (a : ℚ) : qinv a = a⁻¹ := by
have hinv : a⁻¹ = ((a.den : ℚ)) / ((a.num : ℚ)) := by
  rw [Rat.inv_def', Rat.divInt_eq_div]
  norm_cast
rcases lt_trichotomy a.num 0 with hn | hn | hn
· rw [qinv, if_pos hn, mkRat_eq_div', hinv]
  have habs : ((a.num.natAbs : ℚ)) = -((a.num : ℚ)) := by
    rw [Int.cast_natAbs, abs_of_neg hn]
    push_cast
    ring
  rw [habs]
  push_cast
  rw [neg_div_neg_eq]
· have hz : a = 0 := Rat.num_eq_zero.mp hn
  rw [qinv, if_neg (by omega), hn, hz]
  simp [mkRat_eq_div']
· rw [qinv, if_neg (by omega), mkRat_eq_div', hinv]
  have htn : ((a.num.toNat : ℚ)) = ((a.num : ℚ)) := by
    exact_mod_cast Int.toNat_of_nonneg (le_of_lt hn)
  rw [htn]
  push_cast
  rfl

theorem qdiv_eq (a b : ℚ) : qdiv a b = a / b := by
rw [qdiv, qmul_eq, qinv_eq, div_eq_mul_inv]

theorem pyfdiv_eq_floor (a b : ℤ) (hb : b ≠ 0) :
    pyfdiv a b = ⌊(a : ℚ) / (b : ℚ)⌋ := by
rcases lt_or_gt_of_ne hb with hneg | hpos
· rw [pyfdiv, if_neg (by omega)]
  have h1 : ((-b).toNat : ℤ) = -b := Int.toNat_of_nonneg (by omega)
  have h1q : (((-b).toNat : ℕ) : ℚ) = -((b : ℚ)) := by exact_mod_cast h1
  have h2 : ((a : ℚ)) / (b : ℚ) = ((-a : ℤ) : ℚ) / (((-b).toNat : ℕ) : ℚ) := by
    rw [h1q]
    push_cast
    rw [neg_div_neg_eq]
  rw [h2, Rat.floor_intCast_div_natCast, h1]
· rw [pyfdiv, if_pos (by omega)]
  have h1 : (b.toNat : ℤ) = b := Int.toNat_of_nonneg (by omega)
  have h1q : ((b.toNat : ℕ) : ℚ) = ((b : ℚ)) := by exact_mod_cast h1
  have h2 : ((a : ℚ)) / (b : ℚ) = ((a : ℤ) : ℚ) / ((b.toNat : ℕ) : ℚ) := by
    rw [h1q]
  rw [h2, Rat.floor_intCast_div_natCast, h1]

theorem pymod_cast (a b : ℤ) (hb : b ≠ 0) :
    ((pymod a b : ℤ) : ℚ) = (a : ℚ) - (b : ℚ) * ⌊(a : ℚ) / (b : ℚ)⌋ := by
rw [pymod, pyfdiv_eq_floor a b hb]
push_cast
ring

theorem qfloor_eq (a : ℚ) : qfloor a = ⌊a⌋ := by
rw [qfloor, pyfdiv, if_pos (by exact_mod_cast Nat.zero_le a.den), Rat.floor_def]

theorem qnpow_eq (q : ℚ) (n : Nat) : qnpow q n = q ^ n := by
induction n with
| zero =>
  rw [qnpow, pow_zero]
  simp
| succ n ih =>
  rw [qnpow, ih, qmul_eq, pow_succ, mul_comm]

theorem qzpow_eq (q : ℚ) (n : ℤ) : qzpow q n = q ^ n := by
rcases le_or_lt 0 n with hn | hn
· rw [qzpow, if_pos hn, qnpow_eq]
  rw [← zpow_natCast, Int.toNat_of_nonneg hn]
· rw [qzpow, if_neg (by omega), qnpow_eq, qinv_eq]
  have h1 : ((-n).toNat : ℤ) = -n := Int.toNat_of_nonneg (by omega)
  rw [← zpow_natCast, h1, zpow_neg, inv_inv]

/-! ### Soundness of the value operations against exact `ℚ` arithmetic -/

theorem isZeroB_iff {w : Value} (hw : w.isComplexB = false) :
    w.isZeroB = true ↔ w.toR = 0 := by
cases w with
| intV i => simp [Value.isZeroB, Value.toR, qofInt_eq]
| floatV q => simp [Value.isZeroB, Value.toR, Rat.num_eq_zero]
| complexV re im => simp [Value.isComplexB] at hw

theorem addV_sound {v w : Value} (hv : v.isComplexB = false) (hw : w.isComplexB = false) :
    (addV v w).isComplexB = false ∧ (addV v w).toR = v.toR + w.toR := by
cases v <;> cases w <;>
  simp_all [addV, Value.isComplexB, Value.toR, qadd_eq, qofInt_eq]

theorem subV_sound {v w : Value} (hv : v.isComplexB = false) (hw : w.isComplexB = false) :
    (subV v w).isComplexB = false ∧ (subV v w).toR = v.toR - w.toR := by
cases v <;> cases w <;>
  simp_all [subV, Value.isComplexB, Value.toR, qsub_eq, qofInt_eq]

theorem mulV_sound {v w : Value} (hv : v.isComplexB = false) (hw : w.isComplexB = false) :
    (mulV v w).isComplexB = false ∧ (mulV v w).toR = v.toR * w.toR := by
cases v <;> cases w <;>
  simp_all [mulV, Value.isComplexB, Value.toR, qmul_eq, qofInt_eq]

theorem negV_sound {v : Value} (hv : v.isComplexB = false) :
    (negV v).isComplexB = false ∧ (negV v).toR = -(v.toR) := by
cases v <;>
  simp_all [negV, Value.isComplexB, Value.toR, qneg_eq, qofInt_eq]

theorem truedivV_sound {v w u : Value} (hv : v.isComplexB = false)
    (hw : w.isComplexB = false) (h : truedivV v w = .ok u) :
    u.isComplexB = false ∧ w.toR ≠ 0 ∧ u.toR = v.toR / w.toR := by
cases hz : w.isZeroB with
| true => rw [truedivV, if_pos (by simp [hz])] at h; cases h
| false =>
  rw [truedivV, if_neg (by simp [hz]), hv, hw] at h
  simp only [Bool.or_self, Bool.false_or, if_neg] at h
  rw [if_neg (by simp)] at h
  cases h
  refine ⟨rfl, ?_, by rw [Value.toR, qdiv_eq]⟩
  intro h0
  rw [← isZeroB_iff hw] at h0
  rw [h0] at hz
  cases hz

theorem modV_sound {v w u : Value} (hv : v.isComplexB = false)
    (hw : w.isComplexB = false) (h : modV v w = .ok u) :
    u.isComplexB = false ∧ w.toR ≠ 0 ∧
      u.toR = v.toR - w.toR * ⌊v.toR / w.toR⌋ := by
cases v with
| complexV re im => simp [Value.isComplexB] at hv
| intV a =>
  cases w with
  | complexV re im => simp [Value.isComplexB] at hw
  | intV b =>
    cases hb : (b == 0) with
    | true => simp [modV, Value.isZeroB, Value.isComplexB, Value.isIntB, hb] at h
    | false =>
      have hb2 : b ≠ 0 := by simpa using hb
      simp [modV, Value.isZeroB, Value.isComplexB, Value.isIntB, hb] at h
      subst h
      refine ⟨rfl, ?_, ?_⟩
      · simp [Value.toR, qofInt_eq, hb2]
      · simp only [Value.toR, qofInt_eq]
        rw [pymod_cast a b hb2]
  | floatV q =>
    cases hq : (q.num == 0) with
    | true => simp [modV, Value.isZeroB, Value.isComplexB, Value.isIntB, hq] at h
    | false =>
      have hq2 : q ≠ 0 := Rat.num_ne_zero.mp (by simpa using hq)
      simp [modV, Value.isZeroB, Value.isComplexB, Value.isIntB, hq] at h
      subst h
      refine ⟨rfl, by simp [Value.toR, hq2], ?_⟩
      simp [Value.toR, qsub_eq, qmul_eq, qofInt_eq, qfloor_eq, qdiv_eq]
| floatV p =>
  cases w with
  | complexV re im => simp [Value.isComplexB] at hw
  | intV b =>
    cases hb : (b == 0) with
    | true => simp [modV, Value.isZeroB, Value.isComplexB, Value.isIntB, hb] at h
    | false =>
      have hb2 : b ≠ 0 := by simpa using hb
      simp [modV, Value.isZeroB, Value.isComplexB, Value.isIntB, hb] at h
      subst h
      refine ⟨rfl, by simp [Value.toR, qofInt_eq, hb2], ?_⟩
      simp [Value.toR, qsub_eq, qmul_eq, qofInt_eq, qfloor_eq, qdiv_eq]
  | floatV q =>
    cases hq : (q.num == 0) with
    | true => simp [modV, Value.isZeroB, Value.isComplexB, Value.isIntB, hq] at h
    | false =>
      have hq2 : q ≠ 0 := Rat.num_ne_zero.mp (by simpa using hq)
      simp [modV, Value.isZeroB, Value.isComplexB, Value.isIntB, hq] at h
      subst h
      refine ⟨rfl, by simp [Value.toR, hq2], ?_⟩
      simp [Value.toR, qsub_eq, qmul_eq, qofInt_eq, qfloor_eq, qdiv_eq]

theorem powV_sound {v w u : Value} (hv : v.isComplexB = false)
    (hw : w.isComplexB = false) (h : powV v w = .ok u) :
    u.isComplexB = false ∧ mathOp .pow v.toR w.toR = some u.toR := by
cases w with
| complexV re im => simp [Value.isComplexB] at hw
| intV i =>
  have hmath : mathOp BOp.pow v.toR (Value.toR (.intV i))
      = if v.toR = 0 ∧ i < 0 then none else some (v.toR ^ i) := by
    simp [mathOp, Value.toR, qofInt_eq]
  cases v with
  | complexV re im => simp [Value.isComplexB] at hv
  | intV a =>
    by_cases hi : i < 0
    · by_cases ha : a = 0
      · rw [powV] at h
        simp [Value.intExp, Value.isZeroB, ha, hi] at h
      · rw [powV] at h
        simp [Value.intExp, Value.isZeroB, Value.isComplexB, ha, hi, not_le.mpr hi] at h
        subst h
        refine ⟨rfl, ?_⟩
        rw [hmath, if_neg (by simp [Value.toR, qofInt_eq, ha])]
        simp [Value.toR, qzpow_eq, qofInt_eq]
    · have hi0 : 0 ≤ i := by omega
      rw [powV] at h
      simp [Value.intExp, Value.isZeroB, Value.isComplexB, hi, hi0] at h
      subst h
      refine ⟨rfl, ?_⟩
      rw [hmath, if_neg (by simp [hi])]
      have hcast : ((a ^ i.toNat : ℤ) : ℚ) = ((a : ℚ)) ^ i := by
        push_cast
        rw [← zpow_natCast, Int.toNat_of_nonneg hi0]
      simp [Value.toR, qofInt_eq, hcast]
  | floatV p =>
    by_cases hi : i < 0
    · by_cases hp : p.num = 0
      · rw [powV] at h
        simp [Value.intExp, Value.isZeroB, hp, hi] at h
      · rw [powV] at h
        simp [Value.intExp, Value.isZeroB, Value.isComplexB, hp, hi] at h
        subst h
        refine ⟨rfl, ?_⟩
        rw [hmath, if_neg (by simp [Value.toR, Rat.num_eq_zero.not.mp hp])]
        simp [Value.toR, qzpow_eq]
    · rw [powV] at h
      simp [Value.intExp, Value.isZeroB, Value.isComplexB, hi] at h
      subst h
      refine ⟨rfl, ?_⟩
      rw [hmath, if_neg (by simp [hi])]
      simp [Value.toR, qzpow_eq]
| floatV q =>
  by_cases hqd : q.den = 1
  · have hmath : mathOp BOp.pow v.toR (Value.toR (.floatV q))
        = if v.toR = 0 ∧ q.num < 0 then none else some (v.toR ^ q.num) := by
      simp [mathOp, Value.toR, hqd]
    cases v with
    | complexV re im => simp [Value.isComplexB] at hv
    | intV a =>
      by_cases hneg : q.num < 0
      · by_cases ha : a = 0
        · rw [powV] at h
          simp [Value.intExp, Value.isZeroB, hqd, ha, hneg] at h
        · rw [powV] at h
          simp [Value.intExp, Value.isZeroB, Value.isComplexB, hqd, ha, hneg] at h
          subst h
          refine ⟨rfl, ?_⟩
          rw [hmath, if_neg (by simp [Value.toR, qofInt_eq, ha])]
          simp [Value.toR, qzpow_eq]
      · rw [powV] at h
        simp [Value.intExp, Value.isZeroB, Value.isComplexB, hqd, hneg] at h
        subst h
        refine ⟨rfl, ?_⟩
        rw [hmath, if_neg (by simp [hneg])]
        simp [Value.toR, qzpow_eq]
    | floatV p =>
      by_cases hneg : q.num < 0
      · by_cases hp : p.num = 0
        · rw [powV] at h
          simp [Value.intExp, Value.isZeroB, hqd, hp, hneg] at h
        · rw [powV] at h
          simp [Value.intExp, Value.isZeroB, Value.isComplexB, hqd, hp, hneg] at h
          subst h
          refine ⟨rfl, ?_⟩
          rw [hmath, if_neg (by simp [Value.toR, Rat.num_eq_zero.not.mp hp])]
          simp [Value.toR, qzpow_eq]
      · rw [powV] at h
        simp [Value.intExp, Value.isZeroB, Value.isComplexB, hqd, hneg] at h
        subst h
        refine ⟨rfl, ?_⟩
        rw [hmath, if_neg (by simp [hneg])]
        simp [Value.toR, qzpow_eq]
  · rw [powV] at h
    simp [Value.intExp, hqd] at h

/-- The evaluator agrees with exact rational arithmetic on the real
arithmetic fragment: whenever `_eval` succeeds on such a tree, the result
is a real number whose rational content is the mathematically correct
value of the tree. -/
theorem evalE_sound : ∀ t : Expr, realArith t = true → ∀ v : Value,
    evalE t = .ok v → v.isComplexB = false ∧ mathEval t = some v.toR := by
intro t
induction t with
| num w =>
  intro hra v h
  cases w with
  | intV i =>
    simp only [evalE] at h
    cases h
    exact ⟨rfl, by simp [mathEval, Value.toR, qofInt_eq]⟩
  | floatV q =>
    simp only [evalE] at h
    cases h
    exact ⟨rfl, by simp [mathEval, Value.toR]⟩
  | complexV re im => simp [realArith] at hra
| expression b ih =>
  intro hra v h
  simp only [realArith] at hra
  simp only [evalE] at h
  obtain ⟨h1, h2⟩ := ih hra v h
  exact ⟨h1, by simp only [mathEval]; exact h2⟩
| binop l o r ihl ihr =>
  intro hra v h
  simp only [realArith, Bool.and_eq_true] at hra
  obtain ⟨⟨hop, hl⟩, hr⟩ := hra
  simp only [evalE] at h
  cases hel : evalE l with
  | error e =>
    rw [hel] at h
    exact Except.noConfusion h
  | ok a =>
    rw [hel] at h
    cases her : evalE r with
    | error e =>
      rw [her] at h
      exact Except.noConfusion h
    | ok b =>
      rw [her] at h
      obtain ⟨ha1, ha2⟩ := ihl hl a hel
      obtain ⟨hb1, hb2⟩ := ihr hr b her
      cases o with
      | floorDiv => simp [ALLOWED_OPERATORS] at hop
      | add =>
        simp only [ALLOWED_OPERATORS, Except.ok.injEq] at h
        subst h
        obtain ⟨hc, he⟩ := addV_sound ha1 hb1 (v := a) (w := b)
        exact ⟨hc, by rw [mathEval, ha2, hb2]; simp [mathOp, he]⟩
      | sub =>
        simp only [ALLOWED_OPERATORS, Except.ok.injEq] at h
        subst h
        obtain ⟨hc, he⟩ := subV_sound ha1 hb1 (v := a) (w := b)
        exact ⟨hc, by rw [mathEval, ha2, hb2]; simp [mathOp, he]⟩
      | mult =>
        simp only [ALLOWED_OPERATORS, Except.ok.injEq] at h
        subst h
        obtain ⟨hc, he⟩ := mulV_sound ha1 hb1 (v := a) (w := b)
        exact ⟨hc, by rw [mathEval, ha2, hb2]; simp [mathOp, he]⟩
      | div =>
        simp only [ALLOWED_OPERATORS] at h
        obtain ⟨hc, hnz, he⟩ := truedivV_sound ha1 hb1 h
        exact ⟨hc, by rw [mathEval, ha2, hb2]; simp [mathOp, hnz, he]⟩
      | mod =>
        simp only [ALLOWED_OPERATORS] at h
        obtain ⟨hc, hnz, he⟩ := modV_sound ha1 hb1 h
        exact ⟨hc, by rw [mathEval, ha2, hb2]; simp [mathOp, hnz, he]⟩
      | pow =>
        simp only [ALLOWED_OPERATORS] at h
        obtain ⟨hc, he⟩ := powV_sound ha1 hb1 h
        exact ⟨hc, by rw [mathEval, ha2, hb2]; exact he⟩
| unaryop o e ih =>
  intro hra v h
  simp only [realArith, Bool.and_eq_true] at hra
  obtain ⟨hop, hre⟩ := hra
  simp only [evalE] at h
  cases hee : evalE e with
  | error er =>
    rw [hee] at h
    exact Except.noConfusion h
  | ok a =>
    rw [hee] at h
    obtain ⟨ha1, ha2⟩ := ih hre a hee
    cases o with
    | invert => simp [ALLOWED_UNARY] at hop
    | usub =>
      simp only [ALLOWED_UNARY, Except.ok.injEq] at h
      subst h
      obtain ⟨hc, hne⟩ := negV_sound ha1
      exact ⟨hc, by simp [mathEval, ha2, hne]⟩
    | uadd =>
      simp only [ALLOWED_UNARY, Except.ok.injEq] at h
      subst h
      exact ⟨ha1, by simp [mathEval, ha2]⟩
| other k =>
  intro hra v h
  simp [realArith] at hra

/-- A tree containing any non-arithmetic node always evaluates to an
error: `_eval` has no rule producing a value from such a node, and the
`Except` propagation turns any sub-failure into failure of the whole. -/
theorem containsOther_error : ∀ t : Expr, containsOther t = true →
    ∃ e, evalE t = .error e := by
intro t
induction t with
| num v =>
  intro h
  simp [containsOther] at h
| expression b ih =>
  intro h
  simp only [containsOther] at h
  obtain ⟨e, he⟩ := ih h
  exact ⟨e, by simp only [evalE]; exact he⟩
| binop l o r ihl ihr =>
  intro h
  simp only [containsOther, Bool.or_eq_true] at h
  cases h with
  | inl hL =>
    obtain ⟨e, he⟩ := ihl hL
    exact ⟨e, by simp only [evalE, he]⟩
  | inr hR =>
    obtain ⟨e, he⟩ := ihr hR
    cases hel : evalE l with
    | error e2 => exact ⟨e2, by simp only [evalE, hel]⟩
    | ok a => exact ⟨e, by simp only [evalE, hel, he]⟩
| unaryop o x ih =>
  intro h
  simp only [containsOther] at h
  obtain ⟨er, he⟩ := ih h
  exact ⟨er, by simp only [evalE, he]⟩
| other k =>
  intro h
  exact ⟨.unsupportedExpression k, rfl⟩

/-- Inversion: any result the big-step relation can derive is the result
computed by `_eval`. -/
theorem evalR_eq {t : Expr} {r : Except Err Value} (h : EvalR t r) :
    r = evalE t := by
induction h with
| num v => rfl
| expr hb ih => exact ih
| binL o hl ih => simp only [evalE, ← ih]
| binR o hl hr ihl ihr => simp only [evalE, ← ihl, ← ihr]
| binOp hl hr hf ihl ihr => simp only [evalE, ← ihl, ← ihr, hf]
| binNone hl hr hn ihl ihr => simp only [evalE, ← ihl, ← ihr, hn]
| unE o hx ih => simp only [evalE, ← ih]
| unOp hx hf ih => simp only [evalE, ← ih, hf]
| unNone hx hn ih => simp only [evalE, ← ih, hn]
| other k => rfl

/-- The big-step relation is deterministic. -/
theorem evalR_det {t : Expr} {r1 r2 : Except Err Value}
    (h1 : EvalR t r1) (h2 : EvalR t r2) : r1 = r2 :=
(evalR_eq h1).trans (evalR_eq h2).symm

/-- The function `_eval` realises the big-step relation. -/
theorem evalR_complete : ∀ t : Expr, EvalR t (evalE t) := by
intro t
induction t with
| num v => exact EvalR.num v
| expression b ih => exact EvalR.expr ih
| binop l o r ihl ihr =>
  cases hel : evalE l with
  | error e =>
    rw [hel] at ihl
    have hq : evalE (.binop l o r) = .error e := by simp only [evalE, hel]
    rw [hq]
    exact EvalR.binL o ihl
  | ok a =>
    rw [hel] at ihl
    cases her : evalE r with
    | error e =>
      rw [her] at ihr
      have hq : evalE (.binop l o r) = .error e := by simp only [evalE, hel, her]
      rw [hq]
      exact EvalR.binR o ihl ihr
    | ok b =>
      rw [her] at ihr
      cases hop : ALLOWED_OPERATORS o with
      | some f =>
        have hq : evalE (.binop l o r) = f a b := by simp only [evalE, hel, her, hop]
        rw [hq]
        exact EvalR.binOp ihl ihr hop
      | none =>
        have hq : evalE (.binop l o r) = .error (.operatorNotAllowed o.tag) := by
          simp only [evalE, hel, her, hop]
        rw [hq]
        exact EvalR.binNone ihl ihr hop
| unaryop o x ih =>
  cases hex : evalE x with
  | error e =>
    rw [hex] at ih
    have hq : evalE (.unaryop o x) = .error e := by simp only [evalE, hex]
    rw [hq]
    exact EvalR.unE o ih
  | ok a =>
    rw [hex] at ih
    cases hop : ALLOWED_UNARY o with
    | some f =>
      have hq : evalE (.unaryop o x) = f a := by simp only [evalE, hex, hop]
      rw [hq]
      exact EvalR.unOp ih hop
    | none =>
      have hq : evalE (.unaryop o x) = .error (.unaryNotAllowed o.tag) := by
        simp only [evalE, hex, hop]
      rw [hq]
      exact EvalR.unNone ih hop
| other k => exact EvalR.other k

/-! ### The claims -/

/-- C1 (amended): for every input whose parse tree contains a node outside
{NumberLiteral, BinaryOperation, UnaryOperation}, evaluation fails — with
`ParseError` or `UnsupportedExpression` when the disallowed construct is
the first fault reached, and otherwise with the error of an
earlier-evaluated subexpression — and the disallowed construct is never
executed (`_eval` has no rule giving such a node a value).  In particular
`__import__('os')` parses to a `Call` node and is rejected with
`Unsupported expression`. -/
theorem c1_theorem :
    (∀ t : Expr, containsOther t = true → ∃ e, evalE t = .error e) ∧
    safe_eval (cleanL importOs.data) = .error (.unsupportedExpression "Call") ∧
    evaluate importOs = .errR "Unsupported expression: ast.Call" := by
refine ⟨containsOther_error, by decide, by decide⟩

theorem c1_witness : ∃ e, evalE (.other "Call") = .error e :=
c1_theorem.1 (.other "Call") rfl

/-- C1 counterexample to the claim as stated: the input `1/0+x` parses to
a tree containing a non-arithmetic `Name` node, yet evaluation fails with
a `ZeroDivisionError` from the earlier-evaluated left operand — neither a
`ParseError` nor `UnsupportedExpression`. -/
theorem c1_counterexample :
    (match parseE (cleanL "1/0+x".data) with
     | .ok t => containsOther t
     | .error _ => false) = true ∧
    safe_eval (cleanL "1/0+x".data) = .error (.divisionByZero "division by zero") ∧
    evaluate "1/0+x" = .errR "division by zero" := by
refine ⟨by decide, by decide, by decide⟩

/-- C2: division and modulo by zero fail with the typed `ZeroDivisionError`
value (`Err.divisionByZero`), never with a crash: the zero-divisor check
in `op.truediv` applies to every operand type, the one in `op.mod` to
every real operand, and `evaluate "10/0"` returns the
`{ok: false, error: "division by zero"}` response. -/
theorem c2_theorem :
    (∀ v w : Value, w.isZeroB = true →
      ∃ m, truedivV v w = .error (.divisionByZero m)) ∧
    (∀ v w : Value, v.isComplexB = false → w.isComplexB = false →
      w.isZeroB = true → ∃ m, modV v w = .error (.divisionByZero m)) ∧
    safe_eval (cleanL "10/0".data) = .error (.divisionByZero "division by zero") ∧
    evaluate "10/0" = .errR "division by zero" := by
refine ⟨?_, ?_, by decide, by decide⟩
· intro v w h
  exact ⟨divMsg v w, by rw [truedivV, if_pos h]⟩
· intro v w hv hw h
  cases v with
  | complexV re im => simp [Value.isComplexB] at hv
  | intV a =>
    cases w with
    | complexV re im => simp [Value.isComplexB] at hw
    | intV b =>
      exact ⟨"integer modulo by zero",
        by simp only [modV, Value.isComplexB, Value.isIntB, Bool.or_self, Bool.false_or,
          Bool.and_self, if_false, if_pos h]; simp⟩
    | floatV q =>
      exact ⟨"float modulo",
        by simp only [modV, Value.isComplexB, Value.isIntB, Bool.or_self, Bool.false_or,
          Bool.and_false, if_false, if_pos h]; simp⟩
  | floatV p =>
    cases w with
    | complexV re im => simp [Value.isComplexB] at hw
    | intV b =>
      exact ⟨"float modulo",
        by simp only [modV, Value.isComplexB, Value.isIntB, Bool.or_self, Bool.false_or,
          Bool.false_and, if_false, if_pos h]; simp⟩
    | floatV q =>
      exact ⟨"float modulo",
        by simp only [modV, Value.isComplexB, Value.isIntB, Bool.or_self, Bool.false_or,
          Bool.false_and, if_false, if_pos h]; simp⟩

theorem c2_witness :
    ∃ m, truedivV (.intV 10) (.intV 0) = .error (.divisionByZero m) :=
c2_theorem.1 (.intV 10) (.intV 0) (by decide)

/-- C3: on the real arithmetic fragment (int/float literals and allowed
operators), every successful evaluation returns the mathematically
correct exact rational value, and in particular precedence and
parentheses are respected: `2+3*4 = 14`, `(2+3)*4 = 20`, `10%3 = 1`. -/
theorem c3_theorem :
    (∀ t : Expr, realArith t = true → ∀ v : Value,
      evalE t = .ok v → v.isComplexB = false ∧ mathEval t = some v.toR) ∧
    evaluate "2+3*4" = .okR (.intV 14) "2+3*4" ∧
    evaluate "(2+3)*4" = .okR (.intV 20) "(2+3)*4" ∧
    evaluate "10%3" = .okR (.intV 1) "10%3" := by
refine ⟨evalE_sound, by decide, by decide, by decide⟩

theorem c3_witness :
    (Value.intV 14).isComplexB = false ∧
    mathEval (.binop (.num (.intV 2)) .add
      (.binop (.num (.intV 3)) .mult (.num (.intV 4)))) =
      some ((Value.intV 14).toR) :=
c3_theorem.1
  (.binop (.num (.intV 2)) .add (.binop (.num (.intV 3)) .mult (.num (.intV 4))))
  (by decide) (.intV 14) (by decide)

/-- C4: `_eval` evaluates the left operand of a `BinOp` first, then the
right operand, and only then consults the allow-list: a left error
propagates whatever the right operand or operator, a right error
propagates whatever the operator, a missing operator tag fails with
`Operator ... not allowed`, and an allow-listed tag applies the mapped
function; the analogous lookup-or-fail holds for `UnaryOp`. -/
theorem c4_theorem :
    (∀ l r : Expr, ∀ o : BOp, ∀ e : Err,
      evalE l = .error e → evalE (.binop l o r) = .error e) ∧
    (∀ l r : Expr, ∀ o : BOp, ∀ a : Value, ∀ e : Err,
      evalE l = .ok a → evalE r = .error e → evalE (.binop l o r) = .error e) ∧
    (∀ l r : Expr, ∀ o : BOp, ∀ a b : Value,
      evalE l = .ok a → evalE r = .ok b → ALLOWED_OPERATORS o = none →
      evalE (.binop l o r) = .error (.operatorNotAllowed o.tag)) ∧
    (∀ l r : Expr, ∀ o : BOp, ∀ a b : Value, ∀ f,
      evalE l = .ok a → evalE r = .ok b → ALLOWED_OPERATORS o = some f →
      evalE (.binop l o r) = f a b) ∧
    (∀ x : Expr, ∀ o : UOp, ∀ e : Err,
      evalE x = .error e → evalE (.unaryop o x) = .error e) ∧
    (∀ x : Expr, ∀ o : UOp, ∀ a : Value,
      evalE x = .ok a → ALLOWED_UNARY o = none →
      evalE (.unaryop o x) = .error (.unaryNotAllowed o.tag)) ∧
    (∀ x : Expr, ∀ o : UOp, ∀ a : Value, ∀ f,
      evalE x = .ok a → ALLOWED_UNARY o = some f →
      evalE (.unaryop o x) = f a) := by
refine ⟨?_, ?_, ?_, ?_, ?_, ?_, ?_⟩
· intro l r o e h
  simp only [evalE, h]
· intro l r o a e h1 h2
  simp only [evalE, h1, h2]
· intro l r o a b h1 h2 h3
  simp only [evalE, h1, h2, h3]
· intro l r o a b f h1 h2 h3
  simp only [evalE, h1, h2, h3]
· intro x o e h
  simp only [evalE, h]
· intro x o a h1 h2
  simp only [evalE, h1, h2]
· intro x o a f h1 h2
  simp only [evalE, h1, h2]

theorem c4_witness :
    evalE (.binop (.binop (.num (.intV 1)) .div (.num (.intV 0)))
      .floorDiv (.num (.intV 2))) = .error (.divisionByZero "division by zero") :=
c4_theorem.1 (.binop (.num (.intV 1)) .div (.num (.intV 0))) (.num (.intV 2))
  .floorDiv (.divisionByZero "division by zero") (by decide)

/-- C5 (amended): the percent rewrite fires when the symbol-substituted
input itself ends with `%` (the source applies no trimming before the
`endswith` test) and its prefix, stripped and with at most one decimal
point removed, is entirely ASCII digits; then the route invokes the
evaluator on `(<prefix>)/100`, so `evaluate "50%"` yields `0.5`. -/
theorem c5_theorem :
    (∀ s : String, endsPercent (replaceSyms s.data) = true →
      percentArgOK (replaceSyms s.data).dropLast = true →
      evaluate s = respond s (safe_eval
        ('(' :: ((replaceSyms s.data).dropLast ++ (")/100").data)))) ∧
    evaluate "50%" = .okR (.floatV (mkRat 1 2)) "50%" := by
refine ⟨?_, by decide⟩
intro s h1 h2
rw [evaluate, cleanL, percentRewrite, if_pos (by simp [h1, h2])]

theorem c5_witness :
    evaluate "50%" = respond "50%" (safe_eval
      ('(' :: ((replaceSyms "50%".data).dropLast ++ (")/100").data))) :=
c5_theorem.1 "50%" (by decide) (by decide)

/-- C5 counterexample to the claim as stated: the trimmed form of
`"50% "` ends with `%` with an all-digit prefix, yet the route does not
rewrite (its `endswith` test sees the untrimmed string) and returns a
parse error instead of the `0.5` the rewrite would produce. -/
theorem c5_counterexample :
    endsPercent (trimChars "50% ".data) = true ∧
    percentArgOK (trimChars "50% ".data).dropLast = true ∧
    evaluate "50% " = .errR "invalid syntax" ∧
    evaluate "(50)/100" = .okR (.floatV (mkRat 1 2)) "(50)/100" := by
refine ⟨by decide, by decide, by decide, by decide⟩

/-- C6: for every input string the route returns a value of the response
type — `{ok: true, result, input}` or `{ok: false, error: <string>}` —
so every failure is recovered at the evaluator boundary; in the model the
route is a total function into `Response`, mirroring the
`except Exception` handler that converts any raised error to a value. -/
theorem c6_theorem :
    ∀ s : String, (∃ v : Value, evaluate s = .okR v s) ∨
      (∃ m : String, evaluate s = .errR m) := by
intro s
rw [evaluate]
cases h : safe_eval (cleanL s.data) with
| error e => exact Or.inr ⟨errStr e, rfl⟩
| ok v =>
  cases hs : serializableB v with
  | true => exact Or.inl ⟨v, by rw [respond, if_pos hs]⟩
  | false =>
    exact Or.inr ⟨"Object of type complex is not JSON serializable",
      by rw [respond, if_neg (by simp [hs])]⟩

/-- C7: evaluation is deterministic and stateless: the big-step relation
mirroring `_eval` derives exactly one result per tree, `_eval` realises
it, and at the string level any two evaluations of the same input string
produce the same response — the response `evaluate` computes. -/
theorem c7_theorem :
    (∀ t : Expr, ∀ r1 r2 : Except Err Value,
      EvalR t r1 → EvalR t r2 → r1 = r2) ∧
    (∀ t : Expr, EvalR t (evalE t)) ∧
    (∀ s : String, ∀ p1 p2 : Response,
      StrEval s p1 → StrEval s p2 → p1 = p2) ∧
    (∀ s : String, StrEval s (evaluate s)) := by
refine ⟨fun t r1 r2 h1 h2 => evalR_det h1 h2, evalR_complete, ?_, ?_⟩
· intro s p1 p2 h1 h2
  cases h1 with
  | inl h1 =>
    obtain ⟨t1, hp1, r1, hr1, he1⟩ := h1
    cases h2 with
    | inl h2 =>
      obtain ⟨t2, hp2, r2, hr2, he2⟩ := h2
      rw [hp1] at hp2
      cases hp2
      rw [he1, he2, evalR_det hr1 hr2]
    | inr h2 =>
      obtain ⟨e2, hp2, he2⟩ := h2
      rw [hp1] at hp2
      exact Except.noConfusion hp2
  | inr h1 =>
    obtain ⟨e1, hp1, he1⟩ := h1
    cases h2 with
    | inl h2 =>
      obtain ⟨t2, hp2, r2, hr2, he2⟩ := h2
      rw [hp1] at hp2
      exact Except.noConfusion hp2
    | inr h2 =>
      obtain ⟨e2, hp2, he2⟩ := h2
      rw [hp1] at hp2
      cases hp2
      rw [he1, he2]
· intro s
  cases hp : parseE (cleanL s.data) with
  | ok t =>
    exact Or.inl ⟨t, hp, evalE t, evalR_complete t,
      by rw [evaluate, safe_eval, hp]⟩
  | error e =>
    exact Or.inr ⟨e, hp, by rw [evaluate, safe_eval, hp]⟩

theorem c7_witness :
    (Except.ok (Value.intV 3) : Except Err Value) = evalE (.num (.intV 3)) :=
c7_theorem.1 (.num (.intV 3)) (.ok (.intV 3)) (evalE (.num (.intV 3)))
  (EvalR.num (.intV 3)) (evalR_complete (.num (.intV 3)))

/-- C8 (amended): every successful response of the `/eval` route carries
an `int` or a `float` result; the core evaluator itself can additionally
return a `complex` (from an imaginary literal such as `2j`), which fails
JSON serialization inside the route's `try` and is therefore returned as
an error, never as a successful result. -/
theorem c8_theorem :
    ∀ s : String, ∀ v : Value, ∀ inp : String,
      evaluate s = .okR v inp →
      (∃ i : ℤ, v = .intV i) ∨ (∃ q : ℚ, v = .floatV q) := by
intro s v inp h
rw [evaluate] at h
cases hr : safe_eval (cleanL s.data) with
| error e =>
  rw [hr] at h
  simp only [respond] at h
  exact Response.noConfusion h
| ok u =>
  rw [hr] at h
  simp only [respond] at h
  cases hs : serializableB u with
  | false =>
    rw [if_neg (by simp [hs])] at h
    exact Response.noConfusion h
  | true =>
    rw [if_pos hs] at h
    cases u with
    | intV i =>
      cases h
      exact Or.inl ⟨i, rfl⟩
    | floatV q =>
      cases h
      exact Or.inr ⟨q, rfl⟩
    | complexV re im => simp [serializableB] at hs

theorem c8_witness :
    (∃ i : ℤ, Value.intV 2 = .intV i) ∨ (∃ q : ℚ, Value.intV 2 = .floatV q) :=
c8_theorem "1+1" (.intV 2) "1+1" (by decide)

/-- C8 counterexample to the claim as stated: `safe_eval` succeeds on the
input `2j` with a `complex` result — a successful evaluation whose value
is neither a `float` nor an `int`. -/
theorem c8_counterexample :
    safe_eval (cleanL "2j".data) = .ok (.complexV qzero (qofInt 2)) ∧
    (Value.complexV qzero (qofInt 2)).isComplexB = true := by
refine ⟨by decide, by decide⟩

/-- C9: `**` is right-associative (`2**3**2` parses as `2**(3**2)` and
evaluates to `512`), a large exponent is accepted behaviour rather than
an error (`2**100` returns the exact integer), and a negative exponent
produces the float power (`2**-3 = 0.125`). -/
theorem c9_theorem :
    parseE "2**3**2".data = .ok (.expression (.binop (.num (.intV 2)) .pow
      (.binop (.num (.intV 3)) .pow (.num (.intV 2))))) ∧
    evaluate "2**3**2" = .okR (.intV 512) "2**3**2" ∧
    evaluate "2**100" = .okR (.intV (2 ^ 100)) "2**100" ∧
    evaluate "2**-3" = .okR (.floatV (mkRat 1 8)) "2**-3" := by
refine ⟨by decide, by decide, by decide, by decide⟩

/-- C10: a missing POST body and a missing or empty `expr` field all
default the expression to the empty string, and the route returns the
`{ok: false, error: ...}` response produced by the empty string's parse
failure rather than crashing. -/
theorem c10_theorem :
    getJsonExpr none = "" ∧
    getJsonExpr (some none) = "" ∧
    eval_route none = .errR "invalid syntax" ∧
    eval_route (some none) = .errR "invalid syntax" ∧
    eval_route (some (some "")) = .errR "invalid syntax" := by
refine ⟨rfl, rfl, by decide, by decide, by decide⟩

end PyCalc
